import Mathlib

/-!
Verification development for the goava/di dependency-injection container
(`container.go`).  The container is shallowly embedded: nodes are keyed by
(type, name-tag), constructors are described by a small behaviour datatype,
pointer identity is modelled by natural-number instance ids, and the mutable
schema state (memoization cache, cleanup list, invocation log) is threaded
explicitly.  Definitions translated from `container.go` cite their source
lines; parts of the repository that are not in the sources (the schema,
node/compiler and prepare files) are modelled from the specification and are
marked `Modelled from the spec`.
-/

deriving instance DecidableEq for Except

namespace DI

/-- A node key: the result type's descriptor plus the optional `name` tag
(container.go keys nodes by `(type, tags["name"])`). -/
structure Key where
ty : String
tag : String
deriving DecidableEq, Repr

/-- Behaviour of a node's compiler.  `fresh` is a user constructor returning a
new pointer on every call (optionally with a cleanup thunk, identified by a
label); `fixed` is a closure returning the same pointer each call (such as the
container self-provider `func() *Container { return c }`, container.go:67);
`fail` is a constructor returning a non-nil error; `value` is a pre-built
value registered through `ProvideValue` (the `nopCompiler`,
container.go:142-148), which is not a constructor and is never invoked. -/
inductive CtorSpec where
| fresh (cleanup : Option String)
| fixed (v : Nat) (cleanup : Option String)
| fail (msg : String)
| value (v : Nat)
deriving DecidableEq, Repr

/-- A schema node: key, dependency keys (the constructor's parameter list),
its compiler behaviour, the set of interface names its result type
implements (runtime type information used by `n.rt.Implements(i.Type)`,
container.go:179), and the prototype flag. -/
structure Node where
key : Key
deps : List Key
ctor : CtorSpec
implements : List String
prototype : Bool
deriving DecidableEq, Repr

/-- The mutable part of the schema: the memoization cache (each node's `rv`),
the cleanup list (`schema.cleanups`, drained by `Cleanup`,
container.go:352-357), a log of constructor invocations in call order, a log
of constructors in the order they returned successfully, and the next fresh
pointer identity. -/
structure Sstate where
cache : List (Key × Nat)
cleanups : List String
invoked : List Key
completed : List Key
nextId : Nat
deriving DecidableEq, Repr

/-- The container (container.go:10-15): the schema's node list in
registration order, the mutable schema state, and a ghost trace of the
option frames processed by `apply` (observability only). -/
structure Container where
nodes : List Node
st : Sstate
trace : List String
deriving DecidableEq, Repr

/-- Modelled from the spec: the schema's exact lookup by `(type, name)` key
(spec 4.2 `find`); the missing schema file owns the node map.  Registration
order is preserved and the first node with the key wins. -/
def lookupNode : List Node → Key → Option Node
| [], _ => none
| n :: ns, k => if n.key = k then some n else lookupNode ns k

/-- Association lookup in the memoization cache (a node's `rv` field). -/
def cacheGet : List (Key × Nat) → Key → Option Nat
| [], _ => none
| (k, v) :: t, q => if k = q then some v else cacheGet t q

/-- Modelled from the spec: `defaultSchema.register` (spec 4.2 `register`),
whose file is not among the sources.  Inserting under a `(type, name)` key
already holding a constructor or value node returns the error
`<T> already exists in dependency graph` and leaves the schema unchanged;
otherwise the node is appended. -/
def register (ns : List Node) (n : Node) : List Node × Option String :=
match lookupNode ns n.key with
| some _ => (ns, some (n.key.ty ++ " already exists in dependency graph"))
| none => (ns ++ [n], none)

/-- The interface-view node registered for interface `i`
(container.go:182-187): same `rv`, compiler and tags as the concrete node,
re-keyed under the interface type. -/
def viewNode (n : Node) (i : String) : Node :=
{ key := ⟨i, n.key.tag⟩, deps := n.deps, ctor := n.ctor, implements := [], prototype := n.prototype }

/-- The interface loop of `provideNode` (container.go:174-188): for each
requested interface, check `n.rt.Implements(i.Type)` and either register the
interface view (the `register` result is discarded, container.go:182) or
abort with `<T> not implement <I>` (container.go:180). -/
def registerViews (n : Node) : List Node → List String → List Node × Option String
| ns, [] => (ns, none)
| ns, i :: rest =>
  if i ∈ n.implements then
    registerViews n (register ns (viewNode n i)).1 rest
  else
    (ns, some (n.key.ty ++ " not implement " ++ i))

/-- `Container.provideNode` (container.go:171-190).  The concrete node is
registered first and the result of `c.schema.register(n)` is discarded
(container.go:172); then the interface views are registered in order. -/
def provideNode (c : Container) (n : Node) (ifaces : List String) : Container × Option String :=
match registerViews n (register c.nodes n).1 ifaces with
| (ns2, e) => ({ c with nodes := ns2 }, e)

/-- Visit each key of a list in order with the visitor `f`, stopping at the
first error. -/
def depsLoop (f : Key → Except String Unit) : List Key → Except String Unit
| [] => .ok ()
| d :: ds =>
  match f d with
  | .error e => .error e
  | .ok _ => depsLoop f ds

/-- Modelled from the spec: `prepare` (spec 4.5), whose resolver file is not
among the sources.  Depth-first walk of the dependency graph with an explicit
gray stack; meeting a gray node fails with `cycle detected`.  Keys not
registered in the schema are leaves for the walk (their absence surfaces
later, during value construction, as `dependency <D> not exists in
container`).  The black-mark optimization of the three-color scheme does not
change the detected set and is omitted.  Fuel exhaustion can only happen on a
cyclic graph, hence reports `cycle detected` as well. -/
def prepDFS (ns : List Node) : Nat → List Key → Key → Except String Unit
| 0, _, _ => .error "cycle detected"
| fuel + 1, gray, k =>
  if k ∈ gray then .error "cycle detected"
  else
    match lookupNode ns k with
    | none => .ok ()
    | some n => depsLoop (fun d => prepDFS ns fuel (k :: gray) d) n.deps

/-- `prepare(c.schema, node)` as called from `find` (container.go:346): the
walk starts at the node with enough fuel for any simple path. -/
def prepare (ns : List Node) (k : Key) : Except String Unit :=
prepDFS ns (ns.length + 1) [] k

/-- Build each key of a list in order with the builder `f`, threading the
schema state and stopping at the first error (already-built dependencies
keep their recorded state, spec 5). -/
def buildLoop (f : Sstate → Key → (Except String Nat) × Sstate) :
    Sstate → List Key → (Except String Unit) × Sstate
| s, [] => (.ok (), s)
| s, d :: ds =>
  match f s d with
  | (.error e, s1) => (.error e, s1)
  | (.ok _, s1) => buildLoop f s1 ds

/-- Modelled from the spec: `node.Value` (spec 4.3, 4.5), whose node file is
not among the sources.  Checks the cache first; otherwise builds each
dependency in parameter order, then invokes the constructor: on success the
value is cached (unless prototype) and the cleanup thunk, if any, is appended
to the schema's cleanup list; on error nothing is recorded.  Dependency
errors bubble unchanged (the repository tests show the only label wrap
happens in `resolve`, container.go:214). -/
def build (ns : List Node) : Nat → Sstate → Key → (Except String Nat) × Sstate
| 0, s, _ => (.error "cycle detected", s)
| fuel + 1, s, k =>
  match lookupNode ns k with
  | none => (.error ("dependency " ++ k.ty ++ " not exists in container"), s)
  | some n =>
    match cacheGet s.cache k with
    | some v => (.ok v, s)
    | none =>
      match buildLoop (fun s2 d => build ns fuel s2 d) s n.deps with
      | (.error e, s1) => (.error e, s1)
      | (.ok _, s1) =>
        match n.ctor with
        | .value v => (.ok v, { s1 with cache := (k, v) :: s1.cache })
        | .fail msg => (.error msg, { s1 with invoked := s1.invoked ++ [k] })
        | .fixed v cl =>
          (.ok v,
            { s1 with
              invoked := s1.invoked ++ [k]
              completed := s1.completed ++ [k]
              cleanups := s1.cleanups ++ cl.toList
              cache := if n.prototype then s1.cache else (k, v) :: s1.cache })
        | .fresh cl =>
          (.ok s1.nextId,
            { s1 with
              invoked := s1.invoked ++ [k]
              completed := s1.completed ++ [k]
              cleanups := s1.cleanups ++ cl.toList
              nextId := s1.nextId + 1
              cache := if n.prototype then s1.cache else (k, s1.nextId) :: s1.cache })

/-- A `Resolve` target argument: nil, a non-pointer value of some type, or a
pointer to the type to resolve. -/
inductive Ptr where
| null
| nonPtr (ty : String)
| ptr (ty : String)
deriving DecidableEq, Repr

/-- `Container.find` (container.go:330-350): nil and non-pointer targets are
rejected before any lookup; otherwise the schema is consulted and the node is
prepared (cycle-checked). -/
def findC (c : Container) (p : Ptr) (tag : String) : Except String Node :=
match p with
| .null => .error "target must be a pointer, got nil"
| .nonPtr ty => .error ("target must be a pointer, got " ++ ty)
| .ptr ty =>
  match lookupNode c.nodes ⟨ty, tag⟩ with
  | none => .error (ty ++ ": not exists in container")
  | some n =>
    match prepare c.nodes n.key with
    | .error e => .error e
    | .ok _ => .ok n

/-- `Container.resolve` (container.go:207-219): find (which prepares), build
the node's value, wrap a build error once with the resolved node's label
(`fmt.Errorf("%s: %w", node, err)`, container.go:214), and only on success
write the target pointer (`target.Set(value)`, container.go:216-217).  The
last component is the target pointee, unchanged on every error path. -/
def resolveT (c : Container) (p : Ptr) (tag : String) (tgt : Nat) :
    (Except String Nat) × Container × Nat :=
match findC c p tag with
| .error e => (.error e, c, tgt)
| .ok n =>
  match build c.nodes (c.nodes.length + 1) c.st n.key with
  | (.error e, s1) => (.error (n.key.ty ++ ": " ++ e), { c with st := s1 }, tgt)
  | (.ok v, s1) => (.ok v, { c with st := s1 }, v)

/-- `Container.Cleanup` (container.go:352-357) runs the recorded thunks from
the last recorded to the first; this is the order in which the thunks
execute. -/
def cleanupRunOrder (c : Container) : List String :=
c.st.cleanups.reverse

/-- The cleanup thunk carried by a constructor behaviour, if any. -/
def ctorCleanup : CtorSpec → Option String
| .fresh cl => cl
| .fixed _ cl => cl
| .fail _ => none
| .value _ => none

/-- The cleanup labels contributed by a completion log: each successfully
returned constructor contributes its thunk, in completion order. -/
def cleanupsOf (ns : List Node) (completed : List Key) : List String :=
completed.filterMap (fun k => (lookupNode ns k).bind (fun n => ctorCleanup n.ctor))

/-- A container over a registration set with pristine state (empty cache,
no cleanups, no invocations; instance ids start at 1 because id 0 denotes
the container itself). -/
def startC (ns : List Node) : Container :=
⟨ns, ⟨[], [], [], [], 1⟩, []⟩

/-- A sequence of `Resolve` calls by (type, name) request. -/
def resolveMany (c : Container) : List (String × String) → Container
| [] => c
| r :: rs => resolveMany (resolveT c (.ptr r.1) r.2 0).2.1 rs

/-- Modelled from the spec: `parseInvocationParameters` (container.go:249),
whose file is not among the sources: each parameter type is looked up in the
schema; a missing one fails with `<T>: not exists in container` (the message
the repository tests observe). -/
def parseInvocation (ns : List Node) : List Key → Except String (List Node)
| [] => .ok []
| k :: ks =>
  match lookupNode ns k with
  | none => .error (k.ty ++ ": not exists in container")
  | some n =>
    match parseInvocation ns ks with
    | .error e => .error e
    | .ok t => .ok (n :: t)

/-- The argument loop of `Container.invoke` (container.go:253-263): each
parameter node is prepared and built; build errors are wrapped with the
parameter node's label by `fmt.Errorf("%s: %s", node, err)`
(container.go:260), which produces a plain (not `known`) error.  The boolean
in the error marks `knownError` (schema and graph errors). -/
def invokeArgs (ns : List Node) : Sstate → List Node → (Except (Bool × String) Unit) × Sstate
| s, [] => (.ok (), s)
| s, n :: rest =>
  match prepare ns n.key with
  | .error e => (.error (true, e), s)
  | .ok _ =>
    match build ns (ns.length + 1) s n.key with
    | (.error e, s1) => (.error (false, n.key.ty ++ ": " ++ e), s1)
    | (.ok _, s1) => invokeArgs ns s1 rest

/-- `Container.invoke` (container.go:234-269): parse the parameters, prepare
and build each argument, then call the function; a non-nil error returned by
the function itself surfaces unwrapped (and is not a `knownError`). -/
def invokeC (c : Container) (params : List Key) (ret : Option String) :
    Container × Option (Bool × String) :=
match parseInvocation c.nodes params with
| .error e => (c, some (true, e))
| .ok args =>
  match invokeArgs c.nodes c.st args with
  | (.error be, s1) => ({ c with st := s1 }, some be)
  | (.ok _, s1) =>
    match ret with
    | some msg => ({ c with st := s1 }, some (false, msg))
    | none => ({ c with st := s1 }, none)

/-- A surface option as collected by `New`/`Apply` (container.go:17-26):
`di.ProvideValue`, `di.Provide`, `di.Invoke` or `di.Resolve`, each carrying
its caller frame used for error framing. -/
inductive Opt where
| valueOpt (frame : String) (k : Key) (v : Nat)
| provideOpt (frame : String) (n : Node) (ifaces : List String)
| invokeOpt (frame : String) (params : List Key) (ret : Option String)
| resolveOpt (frame : String) (ty : String) (tag : String)
deriving DecidableEq, Repr

/-- The `diopts` struct (container.go:17-26): one slice per option kind. -/
structure Diopts where
values : List Opt
provides : List Opt
invokes : List Opt
resolves : List Opt
deriving DecidableEq, Repr

/-- Modelled from the spec: the option-collection loop
`for _, opt := range options { opt.apply(&di) }` (container.go:63-65, 77-79);
the option implementations are not among the sources, each appends itself to
its kind's slice in the given order. -/
def collect : List Opt → Diopts
| [] => ⟨[], [], [], []⟩
| o :: t =>
  let d := collect t
  match o with
  | .valueOpt .. => { d with values := o :: d.values }
  | .provideOpt .. => { d with provides := o :: d.provides }
  | .invokeOpt .. => { d with invokes := o :: d.invokes }
  | .resolveOpt .. => { d with resolves := o :: d.resolves }

/-- One loop body of `Container.apply` (container.go:83-113): run the option
against the container and frame-wrap its error (`fmt.Errorf("%s: %w",
frame, err)`); an invoke error is frame-wrapped only when `knownError`
(container.go:98-104).  The processed frame is appended to the ghost
trace. -/
def runOpt (c : Container) : Opt → Container × Option String
| .valueOpt f k v =>
  let c0 := { c with trace := c.trace ++ [f] }
  match provideNode c0 ⟨k, [], .value v, [], false⟩ [] with
  | (c1, some e) => (c1, some (f ++ ": " ++ e))
  | (c1, none) => (c1, none)
| .provideOpt f n ifs =>
  let c0 := { c with trace := c.trace ++ [f] }
  match provideNode c0 n ifs with
  | (c1, some e) => (c1, some (f ++ ": " ++ e))
  | (c1, none) => (c1, none)
| .invokeOpt f ps ret =>
  let c0 := { c with trace := c.trace ++ [f] }
  match invokeC c0 ps ret with
  | (c1, some (true, e)) => (c1, some (f ++ ": " ++ e))
  | (c1, some (false, e)) => (c1, some e)
  | (c1, none) => (c1, none)
| .resolveOpt f ty tag =>
  let c0 := { c with trace := c.trace ++ [f] }
  match resolveT c0 (.ptr ty) tag 0 with
  | (.error e, c1, _) => (c1, some (f ++ ": " ++ e))
  | (.ok _, c1, _) => (c1, none)

/-- Run a list of options in order, stopping at the first error. -/
def runList (c : Container) : List Opt → Container × Option String
| [] => (c, none)
| o :: rest =>
  match runOpt c o with
  | (c1, none) => runList c1 rest
  | (c1, some e) => (c1, some e)

/-- `Container.apply` (container.go:83-113): process all `ProvideValue`
options, then all `Provide` options, then all `Invoke` options, then all
`Resolve` options, each group in its given order, returning at the first
error. -/
def applyC (c : Container) (d : Diopts) : Container × Option String :=
match runList c d.values with
| (c1, some e) => (c1, some e)
| (c1, none) =>
  match runList c1 d.provides with
  | (c2, some e) => (c2, some e)
  | (c2, none) =>
    match runList c2 d.invokes with
    | (c3, some e) => (c3, some e)
    | (c3, none) => runList c3 d.resolves

/-- The key of the container's own type. -/
def selfKey : Key := ⟨"*di.Container", ""⟩

/-- The pointer identity of the container itself (instance id 0). -/
def containerValue : Nat := 0

/-- The node registered by `c.provide(func() *Container { return c })`
(container.go:67): a closure returning the container pointer itself. -/
def selfNode : Node := ⟨selfKey, [], .fixed containerValue none, [], false⟩

/-- `di.New` (container.go:56-72): collect the options into `diopts`,
allocate the container, register the self-provider (its error is discarded,
container.go:67), then apply the collected options; any error discards the
container. -/
def newC (opts : List Opt) : Option Container :=
match applyC (provideNode ⟨[], ⟨[], [], [], [], 1⟩, []⟩ selfNode []).1 (collect opts) with
| (c2, none) => some c2
| (_, some _) => none

/-- An edge of the dependency graph: `a`'s registered node lists `b` among
its dependency keys. -/
def Edge (ns : List Node) (a b : Key) : Prop :=
∃ n, lookupNode ns a = some n ∧ b ∈ n.deps

/-- A walk in the dependency graph starting at a key: the list records the
successive vertices after the start. -/
inductive Walk (ns : List Node) : Key → List Key → Prop
| nil (k : Key) : Walk ns k []
| cons {a b : Key} {l : List Key} : Edge ns a b → Walk ns b l → Walk ns a (b :: l)

/-- A dependency cycle is reachable from `k`: some walk from `k` repeats a
vertex. -/
def HasCycleFrom (ns : List Node) (k : Key) : Prop :=
∃ l, Walk ns k l ∧ ¬ (k :: l).Nodup

/-- The first `Provide` of the duplicate-registration scenario
(container_test.go:292-297). -/
def dupNode1 : Node := ⟨⟨"*http.Server", ""⟩, [], .fresh none, [], false⟩

/-- The second `Provide` of the duplicate-registration scenario, under the
same `(type, name)` key. -/
def dupNode2 : Node := ⟨⟨"*http.Server", ""⟩, [], .fail "second", [], false⟩

/-- The container after the first `Provide`. -/
def dupC1 : Container := (provideNode (startC []) dupNode1 []).1

/-- The concrete node of the partial-registration scenario
(container_test.go:299-304): `*http.Server` implements `io.Closer` but not
`io.Reader`. -/
def asNode : Node := ⟨⟨"*http.Server", ""⟩, [], .fresh none, ["io.Closer"], false⟩

/-- Recognizer for `di.ProvideValue` options. -/
def isValueOpt : Opt → Bool
| .valueOpt .. => true
| _ => false

/-- Recognizer for `di.Provide` options. -/
def isProvideOpt : Opt → Bool
| .provideOpt .. => true
| _ => false

/-- Recognizer for `di.Invoke` options. -/
def isInvokeOpt : Opt → Bool
| .invokeOpt .. => true
| _ => false

/-- Recognizer for `di.Resolve` options. -/
def isResolveOpt : Opt → Bool
| .resolveOpt .. => true
| _ => false

/-- The processing order that `apply` (container.go:83-113) claims: all
`ProvideValue` options, then all `Provide` options, then all `Invoke`
options, then all `Resolve` options, each group in the given order.  This
definition follows the specification's words; `applyC` follows the
source. -/
def reorder (ops : List Opt) : List Opt :=
ops.filter isValueOpt ++ ops.filter isProvideOpt
  ++ ops.filter isInvokeOpt ++ ops.filter isResolveOpt

/-- A raw (unwrapped) build error: either a missing-dependency message, or
the exact message returned by some registered constructor, or the cycle
sentinel.  Build errors carry no node-label wrapping of their own. -/
def RawBuildErr (ns : List Node) (e : String) : Prop :=
(∃ t, e = "dependency " ++ t ++ " not exists in container")
∨ (∃ n, n ∈ ns ∧ n.ctor = .fail e)
∨ e = "cycle detected"

/-- The registration set of the failing-constructor scenario
(container_test.go:43-51): a single node whose constructor returns the error
`server build failed`. -/
def failNode : Node := ⟨⟨"*http.Server", ""⟩, [], .fail "server build failed", [], false⟩

/-- The container holding only `failNode`. -/
def failC : Container := startC [failNode]

/-- The two-node chain of the counterexample: `A` depends on `B`, and `B`'s
constructor fails with `boom`. -/
def chainC : Container :=
startC
  [⟨⟨"A", ""⟩, [⟨"B", ""⟩], .fresh none, [], false⟩,
   ⟨⟨"B", ""⟩, [], .fail "boom", [], false⟩]

/-- The single-node scenario S1 (container_test.go:61-69). -/
def singleNode : Node := ⟨⟨"*http.Server", ""⟩, [], .fresh none, [], false⟩

/-- The container holding only `singleNode`. -/
def singleC : Container := startC [singleNode]

/-- The container after the first successful resolution of `singleNode`:
instance id 1 built, memoized, invocation and completion logged. -/
def singleC1 : Container :=
⟨[singleNode],
 ⟨[(⟨"*http.Server", ""⟩, 1)], [], [⟨"*http.Server", ""⟩], [⟨"*http.Server", ""⟩], 2⟩,
 []⟩

/-- The cleanup-list invariant: the schema's cleanup list always equals the
cleanups contributed by the constructors completed so far, in completion
order. -/
def cleanupInv (ns : List Node) (s : Sstate) : Prop :=
s.cleanups = cleanupsOf ns s.completed

/-- The cache invariant behind self-resolution: any memoized value under the
container's own key is the container pointer itself. -/
def cacheSelf (s : Sstate) : Prop :=
∀ v, cacheGet s.cache selfKey = some v → v = containerValue

/-- The container invariant behind self-resolution: the self-provider node
is the schema's node for the container's key (registered first by `New`,
container.go:67, and never displaced because `register` keeps the first
registration), and the cache respects `cacheSelf`. -/
def selfOK (c : Container) : Prop :=
lookupNode c.nodes selfKey = some selfNode ∧ cacheSelf c.st

/-- The three-node cycle of scenario S3 (container_test.go:212-229):
`bool` depends on `int32`, `int32` on `int64`, `int64` on `bool`. -/
def cnB : Node := ⟨⟨"bool", ""⟩, [⟨"int32", ""⟩], .fresh none, [], false⟩

/-- The `int32` node of scenario S3. -/
def cnI32 : Node := ⟨⟨"int32", ""⟩, [⟨"int64", ""⟩], .fresh none, [], false⟩

/-- The `int64` node of scenario S3. -/
def cnI64 : Node := ⟨⟨"int64", ""⟩, [⟨"bool", ""⟩], .fresh none, [], false⟩

/-- The cyclic registration set of scenario S3. -/
def cycC : Container := startC [cnB, cnI32, cnI64]

section Lemmas

variable {ns : List Node}

lemma lookupNode_key_eq : ∀ {ms : List Node} {k : Key} {n : Node},
    lookupNode ms k = some n → n.key = k := by
  intro ms
  induction ms with
  | nil => intro k n h; simp [lookupNode] at h
  | cons m t ih =>
    intro k n h
    by_cases hm : m.key = k
    · simp [lookupNode, hm] at h; rw [← h]; exact hm
    · simp [lookupNode, hm] at h; exact ih h

lemma lookupNode_mem : ∀ {ms : List Node} {k : Key} {n : Node},
    lookupNode ms k = some n → n ∈ ms := by
  intro ms
  induction ms with
  | nil => intro k n h; simp [lookupNode] at h
  | cons m t ih =>
    intro k n h
    by_cases hm : m.key = k
    · simp [lookupNode, hm] at h; subst h; exact List.mem_cons_self m t
    · simp [lookupNode, hm] at h; exact List.mem_cons_of_mem m (ih h)

lemma lookupNode_append_left : ∀ {ms l : List Node} {k : Key} {n : Node},
    lookupNode ms k = some n → lookupNode (ms ++ l) k = some n := by
  intro ms
  induction ms with
  | nil => intro l k n h; simp [lookupNode] at h
  | cons m t ih =>
    intro l k n h
    by_cases hm : m.key = k
    · simp [lookupNode, hm] at h ⊢; exact h
    · simp [lookupNode, hm] at h ⊢; exact ih h

lemma lookupNode_mem_keys : ∀ {ms : List Node} {k : Key} {n : Node},
    lookupNode ms k = some n → k ∈ ms.map Node.key := by
  intro ms
  induction ms with
  | nil => intro k n h; simp [lookupNode] at h
  | cons m t ih =>
    intro k n h
    by_cases hm : m.key = k
    · simp [hm.symm]
    · simp [lookupNode, hm] at h; simp [ih h]

lemma register_keeps {q : Key} {m n : Node}
    (h : lookupNode ns q = some m) : lookupNode (register ns n).1 q = some m := by
  unfold register
  cases hl : lookupNode ns n.key with
  | some p => simpa using h
  | none => simpa using lookupNode_append_left h

lemma registerViews_keeps {q : Key} {m : Node} (n : Node) :
    ∀ (ifs : List String) (ms : List Node), lookupNode ms q = some m →
      lookupNode (registerViews n ms ifs).1 q = some m := by
  intro ifs
  induction ifs with
  | nil => intro ms h; simpa [registerViews] using h
  | cons i rest ih =>
    intro ms h
    by_cases hi : i ∈ n.implements
    · simpa [registerViews, hi] using ih _ (register_keeps h)
    · simpa [registerViews, hi] using h

end Lemmas

/-- Claim C8: for every `Resolve` call that returns a non-nil error, the
pointee of the target pointer is left unchanged: `resolve`
(container.go:207-219) executes `target.Set(value)` only after `find` and
`node.Value` have both succeeded, so a failed lookup, preparation or
construction never mutates the caller's variable. -/
theorem resolve_error_target_unchanged (c : Container) (p : Ptr) (tag : String)
    (t : Nat) (e : String) (c' : Container) (t' : Nat)
    (h : resolveT c p tag t = (.error e, c', t')) : t' = t := by
  unfold resolveT at h
  cases hf : findC c p tag with
  | error e2 =>
    rw [hf] at h
    simp only [Prod.mk.injEq] at h
    exact h.2.2.symm
  | ok n =>
    rw [hf] at h
    dsimp only at h
    cases hb : build c.nodes (c.nodes.length + 1) c.st n.key with
    | mk r s1 =>
      rw [hb] at h
      cases r with
      | error e2 => simp only [Prod.mk.injEq] at h; exact h.2.2.symm
      | ok v => simp at h

/-- Closed witness for `resolve_error_target_unchanged`: resolving an
unregistered type leaves the target pointee (here 5) untouched. -/
theorem resolve_error_target_unchanged_witness :
    resolveT (startC []) (.ptr "X") "" 5 = (.error "X: not exists in container", startC [], 5)
    ∧ (5 : Nat) = 5 :=
  ⟨by decide, resolve_error_target_unchanged (startC []) (.ptr "X") "" 5
    "X: not exists in container" (startC []) 5 (by decide)⟩

/-- Claim C5 (code evaluation): `find` (container.go:331-335) rejects nil and
non-pointer targets before any schema lookup or construction — the container
and the target are returned unchanged — but the message it produces is
`target must be a pointer, got <T>`, without the `resolve ` prefix that the
spec and the repository's own tests (container_test.go:21,27,33) require. -/
theorem resolve_target_check_message (c : Container) (ty tag : String) (t : Nat) :
    resolveT c .null tag t = (.error "target must be a pointer, got nil", c, t)
    ∧ resolveT c (.nonPtr ty) tag t
      = (.error ("target must be a pointer, got " ++ ty), c, t) :=
  ⟨rfl, rfl⟩

/-- Claim C4 (code evaluation): the schema's `register` does report the
duplicate key (`*http.Server already exists in dependency graph`, as the
spec and the test container_test.go:296 require), but `provideNode`
(container.go:172) discards the result of `c.schema.register(n)`, so the
second `Provide` returns no error; the first registration stays in
effect. -/
theorem provide_duplicate_dropped :
    (register dupC1.nodes dupNode2).2 = some "*http.Server already exists in dependency graph"
    ∧ provideNode dupC1 dupNode2 [] = (dupC1, none)
    ∧ lookupNode (provideNode dupC1 dupNode2 []).1.nodes ⟨"*http.Server", ""⟩ = some dupNode1 := by
  decide

/-- Claim C9: when `Provide` fails with `<T> not implement <I>`
(container.go:179-180), the concrete node has already been registered
(container.go:172) and the interface views for every interface before the
failing one have been registered too (container.go:182-187); nothing is
rolled back, so `Provide` is not atomic with respect to this error. -/
theorem provide_interface_error_partial (c : Container) (n : Node)
    (pre : List String) (bad : String) (rest : List String)
    (hpre : ∀ i ∈ pre, i ∈ n.implements) (hbad : bad ∉ n.implements) :
    provideNode c n (pre ++ bad :: rest)
      = ({ c with nodes := (pre.foldl (fun ms i => (register ms (viewNode n i)).1)
            ((register c.nodes n).1)) },
         some (n.key.ty ++ " not implement " ++ bad))
    ∧ (lookupNode c.nodes n.key = none →
        lookupNode (provideNode c n (pre ++ bad :: rest)).1.nodes n.key = some n) := by
  have main : ∀ (p : List String) (ms : List Node), (∀ i ∈ p, i ∈ n.implements) →
      registerViews n ms (p ++ bad :: rest)
        = (p.foldl (fun ms2 i => (register ms2 (viewNode n i)).1) ms,
           some (n.key.ty ++ " not implement " ++ bad)) := by
    intro p
    induction p with
    | nil => intro ms _; simp [registerViews, hbad]
    | cons i p2 ih =>
      intro ms hp
      have hi : i ∈ n.implements := hp i (List.mem_cons_self i p2)
      simp only [List.cons_append, registerViews, hi, if_pos, List.foldl_cons]
      exact ih _ (fun j hj => hp j (List.mem_cons_of_mem i hj))
  have h1 : provideNode c n (pre ++ bad :: rest)
      = ({ c with nodes := (pre.foldl (fun ms i => (register ms (viewNode n i)).1)
            ((register c.nodes n).1)) },
         some (n.key.ty ++ " not implement " ++ bad)) := by
    unfold provideNode
    rw [main pre (register c.nodes n).1 hpre]
  refine ⟨h1, fun hfresh => ?_⟩
  rw [h1]
  dsimp only
  have hreg : lookupNode (register c.nodes n).1 n.key = some n := by
    unfold register
    rw [hfresh]
    dsimp only
    have fresh_append : ∀ (ms : List Node), lookupNode ms n.key = none →
        lookupNode (ms ++ [n]) n.key = some n := by
      intro ms
      induction ms with
      | nil => intro _; simp [lookupNode]
      | cons m t ih =>
        intro hnone
        by_cases hm : m.key = n.key
        · simp [lookupNode, hm] at hnone
        · simp only [List.cons_append, lookupNode, if_neg hm] at hnone ⊢
          exact ih hnone
    exact fresh_append c.nodes hfresh
  have keep : ∀ (p : List String) (ms : List Node), lookupNode ms n.key = some n →
      lookupNode (p.foldl (fun ms2 i => (register ms2 (viewNode n i)).1) ms) n.key = some n := by
    intro p
    induction p with
    | nil => intro ms h; simpa using h
    | cons i p2 ih => intro ms h; exact ih _ (register_keeps h)
  exact keep pre _ hreg

/-- Closed witness for `provide_interface_error_partial` at the concrete
scenario: the error is reported, yet the concrete node and the `io.Closer`
view are (and remain) registered. -/
theorem provide_interface_error_partial_witness :
    provideNode (startC []) asNode (["io.Closer"] ++ "io.Reader" :: [])
      = ({ startC [] with nodes := (["io.Closer"].foldl
            (fun ms i => (register ms (viewNode asNode i)).1)
            ((register (startC []).nodes asNode).1)) },
         some (asNode.key.ty ++ " not implement " ++ "io.Reader"))
    ∧ (lookupNode (startC []).nodes asNode.key = none →
        lookupNode (provideNode (startC []) asNode (["io.Closer"] ++ "io.Reader" :: [])).1.nodes
          asNode.key = some asNode) :=
  provide_interface_error_partial (startC []) asNode ["io.Closer"] "io.Reader" []
    (by decide) (by decide)

section ApplyLemmas

lemma collect_values : ∀ ops : List Opt, (collect ops).values = ops.filter isValueOpt := by
  intro ops
  induction ops with
  | nil => rfl
  | cons o t ih => cases o <;> simp [collect, List.filter, isValueOpt, ih]

lemma collect_provides : ∀ ops : List Opt, (collect ops).provides = ops.filter isProvideOpt := by
  intro ops
  induction ops with
  | nil => rfl
  | cons o t ih => cases o <;> simp [collect, List.filter, isProvideOpt, ih]

lemma collect_invokes : ∀ ops : List Opt, (collect ops).invokes = ops.filter isInvokeOpt := by
  intro ops
  induction ops with
  | nil => rfl
  | cons o t ih => cases o <;> simp [collect, List.filter, isInvokeOpt, ih]

lemma collect_resolves : ∀ ops : List Opt, (collect ops).resolves = ops.filter isResolveOpt := by
  intro ops
  induction ops with
  | nil => rfl
  | cons o t ih => cases o <;> simp [collect, List.filter, isResolveOpt, ih]

lemma runList_append (b : List Opt) : ∀ (a : List Opt) (c : Container),
    runList c (a ++ b)
      = (match runList c a with
         | (c1, none) => runList c1 b
         | (c1, some e) => (c1, some e)) := by
  intro a
  induction a with
  | nil => intro c; rfl
  | cons o t ih =>
    intro c
    simp only [List.cons_append, runList]
    cases runOpt c o with
    | mk c1 r =>
      cases r with
      | none => exact ih c1
      | some e => rfl

end ApplyLemmas

/-- Claim C10: `apply` (container.go:83-113) — hence also `Apply` and `New` —
processes the collected options grouped by kind in a fixed order: all
`ProvideValue` options, then all `Provide` options, then all `Invoke`
options, then all `Resolve` options, regardless of the order in which the
options were interleaved; within each group the given order is preserved and
the first error aborts the remainder.  Formally, `applyC` on the collected
`diopts` equals the sequential first-error run of the reordered option
list. -/
theorem apply_fixed_group_order (c : Container) (ops : List Opt) :
    applyC c (collect ops) = runList c (reorder ops) := by
  unfold applyC reorder
  rw [collect_values, collect_provides, collect_invokes, collect_resolves]
  rw [runList_append, runList_append, runList_append]
  cases h1 : runList c (ops.filter isValueOpt) with
  | mk c1 r1 =>
    cases r1 with
    | some e => rfl
    | none =>
      dsimp only
      cases h2 : runList c1 (ops.filter isProvideOpt) with
      | mk c2 r2 =>
        cases r2 with
        | some e => rfl
        | none =>
          dsimp only
          cases h3 : runList c2 (ops.filter isInvokeOpt) with
          | mk c3 r3 =>
            cases r3 with
            | some e => rfl
            | none => dsimp only

section BuildErrLemmas

variable {ns : List Node}

lemma buildLoop_error {f : Sstate → Key → (Except String Nat) × Sstate}
    (hf : ∀ s k e s1, f s k = (.error e, s1) → RawBuildErr ns e) :
    ∀ (ds : List Key) (s : Sstate) (e : String) (s1 : Sstate),
      buildLoop f s ds = (.error e, s1) → RawBuildErr ns e := by
  intro ds
  induction ds with
  | nil => intro s e s1 h; simp [buildLoop] at h
  | cons d t ih =>
    intro s e s1 h
    simp only [buildLoop] at h
    cases hd : f s d with
    | mk r s2 =>
      rw [hd] at h
      cases r with
      | error e2 =>
        simp only [Prod.mk.injEq, Except.error.injEq] at h
        exact h.1 ▸ hf s d e2 s2 hd
      | ok v => exact ih s2 e s1 h

lemma build_error_raw : ∀ (fuel : Nat) (s : Sstate) (k : Key) (e : String) (s1 : Sstate),
    build ns fuel s k = (.error e, s1) → RawBuildErr ns e := by
  intro fuel
  induction fuel with
  | zero =>
    intro s k e s1 h
    simp only [build, Prod.mk.injEq] at h
    exact Or.inr (Or.inr (by injection h.1.symm))
  | succ f ih =>
    intro s k e s1 h
    simp only [build] at h
    cases hl : lookupNode ns k with
    | none =>
      rw [hl] at h
      simp only [Prod.mk.injEq] at h
      exact Or.inl ⟨k.ty, by injection h.1.symm⟩
    | some n =>
      rw [hl] at h
      dsimp only at h
      cases hc : cacheGet s.cache k with
      | some v => rw [hc] at h; simp at h
      | none =>
        rw [hc] at h
        dsimp only at h
        cases hb : buildLoop (fun s2 d => build ns f s2 d) s n.deps with
        | mk r s2 =>
          rw [hb] at h
          cases r with
          | error e2 =>
            simp only [Prod.mk.injEq] at h
            have : RawBuildErr ns e2 :=
              buildLoop_error (fun s3 k3 e3 s4 hx => ih s3 k3 e3 s4 hx) n.deps s e2 s2 hb
            have he : e = e2 := by injection h.1.symm
            exact he ▸ this
          | ok u =>
            cases hct : n.ctor with
            | value v => rw [hct] at h; simp at h
            | fail msg =>
              rw [hct] at h
              simp only [Prod.mk.injEq] at h
              have he : e = msg := by injection h.1.symm
              exact Or.inr (Or.inl ⟨n, lookupNode_mem hl, by rw [hct, he]⟩)
            | fixed v cl => rw [hct] at h; simp at h
            | fresh cl => rw [hct] at h; simp at h

end BuildErrLemmas

/-- Claim C6, amended: when `node.Value` fails during a `Resolve`, the error
that reaches the caller is wrapped exactly once — by `resolve`
(container.go:214) — with the *resolved* node's label, and the underlying
message is raw (a constructor's own error text or a missing-dependency
message, never wrapped again at inner dependency levels); no error is
recovered internally.  The label equals the failing node's label exactly
when the resolved node's own constructor fails. -/
theorem build_error_wrapped_once (c : Container) (p : Ptr) (tag : String)
    (t : Nat) (n : Node) (e : String) (s1 : Sstate)
    (hf : findC c p tag = .ok n)
    (hb : build c.nodes (c.nodes.length + 1) c.st n.key = (.error e, s1)) :
    resolveT c p tag t = (.error (n.key.ty ++ ": " ++ e), { c with st := s1 }, t)
    ∧ RawBuildErr c.nodes e := by
  constructor
  · unfold resolveT
    rw [hf]
    dsimp only
    rw [hb]
  · exact build_error_raw (c.nodes.length + 1) c.st n.key e s1 hb

/-- Closed witness for `build_error_wrapped_once`: resolving the failing
node yields `*http.Server: server build failed`, a single wrap of the raw
constructor error, exactly as the repository test observes. -/
theorem build_error_wrapped_once_witness :
    findC failC (.ptr "*http.Server") "" = .ok failNode
    ∧ (resolveT failC (.ptr "*http.Server") "" 3
        = (.error (failNode.key.ty ++ ": " ++ "server build failed"),
           { failC with st := (build failC.nodes (failC.nodes.length + 1) failC.st failNode.key).2 },
           3)
      ∧ RawBuildErr failC.nodes "server build failed") :=
  ⟨by decide,
    build_error_wrapped_once failC (.ptr "*http.Server") "" 3 failNode "server build failed"
      (build failC.nodes (failC.nodes.length + 1) failC.st failNode.key).2
      (by decide) (by decide)⟩

/-- Claim C6 counterexample: when the failing constructor belongs to a
strict dependency (`B`) of the resolved node (`A`), the caller receives
`A: boom` — one wrap with the *resolved* node's label — not `B: boom`, the
wrap with the *failing* node's label that the claim requires. -/
theorem build_error_label_cex :
    (resolveT chainC (.ptr "A") "" 0).1 = .error "A: boom"
    ∧ (resolveT chainC (.ptr "A") "" 0).1 ≠ .error "B: boom" := by
  decide

section MemoLemmas

variable {ns : List Node}

lemma findC_ok_parts {c : Container} {ty tag : String} {n : Node}
    (h : findC c (.ptr ty) tag = .ok n) :
    lookupNode c.nodes ⟨ty, tag⟩ = some n ∧ prepare c.nodes n.key = .ok () := by
  unfold findC at h
  dsimp only at h
  cases hl : lookupNode c.nodes ⟨ty, tag⟩ with
  | none => rw [hl] at h; simp at h
  | some m =>
    rw [hl] at h
    dsimp only at h
    cases hp : prepare c.nodes m.key with
    | error e => rw [hp] at h; simp at h
    | ok u =>
      rw [hp] at h
      simp only [Except.ok.injEq] at h
      subst h
      exact ⟨rfl, hp⟩

lemma build_success_caches {fuel : Nat} {s s1 : Sstate} {k : Key} {n : Node} {v : Nat}
    (hl : lookupNode ns k = some n) (hproto : n.prototype = false)
    (hb : build ns fuel s k = (.ok v, s1)) :
    cacheGet s1.cache k = some v := by
  cases fuel with
  | zero => simp [build] at hb
  | succ f =>
    simp only [build] at hb
    rw [hl] at hb
    dsimp only at hb
    cases hc : cacheGet s.cache k with
    | some w =>
      rw [hc] at hb
      simp only [Prod.mk.injEq, Except.ok.injEq] at hb
      rw [← hb.2, hc, hb.1]
    | none =>
      rw [hc] at hb
      dsimp only at hb
      cases hd : buildLoop (fun s2 d => build ns f s2 d) s n.deps with
      | mk r s2 =>
        rw [hd] at hb
        cases r with
        | error e => simp at hb
        | ok u =>
          cases hct : n.ctor with
          | value w =>
            rw [hct] at hb
            simp only [Prod.mk.injEq, Except.ok.injEq] at hb
            rw [← hb.2]
            simp [cacheGet, hb.1]
          | fail msg => rw [hct] at hb; simp at hb
          | fixed w cl =>
            rw [hct] at hb
            simp only [Prod.mk.injEq, Except.ok.injEq] at hb
            rw [← hb.2]
            simp [cacheGet, hproto, hb.1]
          | fresh cl =>
            rw [hct] at hb
            simp only [Prod.mk.injEq, Except.ok.injEq] at hb
            rw [← hb.2]
            simp [cacheGet, hproto, hb.1]

end MemoLemmas

/-- Claim C3: for a non-prototype node, two successful `Resolve` calls for
its key yield pointer-identical values: the first call memoizes the built
instance in the node (`node.Value` caches on success, spec 4.5), and the
second returns the cached instance without invoking any constructor or
changing any state (`c2 = c1` in particular gives
`c2.st.invoked = c1.st.invoked`). -/
theorem singleton_identity (c : Container) (ty tag : String) (n : Node)
    (t1 t2 v1 v2 r1 r2 : Nat) (c1 c2 : Container)
    (hn : lookupNode c.nodes ⟨ty, tag⟩ = some n)
    (hproto : n.prototype = false)
    (h1 : resolveT c (.ptr ty) tag t1 = (.ok v1, c1, r1))
    (h2 : resolveT c1 (.ptr ty) tag t2 = (.ok v2, c2, r2)) :
    v2 = v1 ∧ cacheGet c1.st.cache ⟨ty, tag⟩ = some v1 ∧ c2 = c1 := by
  unfold resolveT at h1
  cases hf : findC c (.ptr ty) tag with
  | error e => rw [hf] at h1; simp at h1
  | ok m =>
    rw [hf] at h1
    dsimp only at h1
    obtain ⟨hlm, hprep⟩ := findC_ok_parts hf
    have hmn : m = n := by rw [hlm] at hn; injection hn
    subst hmn
    have hkey : m.key = ⟨ty, tag⟩ := lookupNode_key_eq hlm
    cases hb : build c.nodes (c.nodes.length + 1) c.st m.key with
    | mk rb sb =>
      rw [hb] at h1
      cases rb with
      | error e => simp at h1
      | ok v =>
        simp only [Prod.mk.injEq, Except.ok.injEq] at h1
        obtain ⟨hv1, hc1, hr1⟩ := h1
        have hlm2 : lookupNode c.nodes m.key = some m := by rw [hkey]; exact hlm
        have hcache : cacheGet sb.cache m.key = some v :=
          build_success_caches hlm2 hproto hb
        have hc1nodes : c1.nodes = c.nodes := by rw [← hc1]
        have hc1st : c1.st = sb := by rw [← hc1]
        have hcache1 : cacheGet c1.st.cache ⟨ty, tag⟩ = some v1 := by
          rw [hc1st, ← hkey, hcache, hv1]
        have hf2 : findC c1 (.ptr ty) tag = .ok m := by
          unfold findC
          dsimp only
          rw [hc1nodes, hlm]
          dsimp only
          rw [hprep]
        have hb2 : build c1.nodes (c1.nodes.length + 1) c1.st m.key = (.ok v, c1.st) := by
          have hl1 : lookupNode c1.nodes m.key = some m := by rw [hc1nodes]; exact hlm2
          have hcg : cacheGet c1.st.cache m.key = some v := by rw [hc1st]; exact hcache
          simp only [build]
          rw [hl1]
          dsimp only
          rw [hcg]
        unfold resolveT at h2
        rw [hf2] at h2
        dsimp only at h2
        rw [hb2] at h2
        simp only [Prod.mk.injEq, Except.ok.injEq] at h2
        obtain ⟨hv2, hc2, hr2⟩ := h2
        have hc2c1 : c2 = c1 := by rw [← hc2]
        exact ⟨hv2.symm.trans hv1, hcache1, hc2c1⟩

/-- Closed witness for `singleton_identity`: resolving `*http.Server` twice
yields instance id 1 both times, the value is memoized and the second call
changes nothing. -/
theorem singleton_identity_witness :
    lookupNode singleC.nodes ⟨"*http.Server", ""⟩ = some singleNode
    ∧ resolveT singleC (.ptr "*http.Server") "" 0 = (.ok 1, singleC1, 1)
    ∧ resolveT singleC1 (.ptr "*http.Server") "" 0 = (.ok 1, singleC1, 1)
    ∧ ((1 : Nat) = 1
        ∧ cacheGet singleC1.st.cache ⟨"*http.Server", ""⟩ = some 1
        ∧ singleC1 = singleC1) :=
  ⟨by decide, by decide, by decide,
    singleton_identity singleC "*http.Server" "" singleNode 0 0 1 1 1 1 singleC1 singleC1
      (by decide) (by decide) (by decide) (by decide)⟩

section CleanupLemmas

variable {ns : List Node}

lemma filterMap_single {α β : Type} (f : α → Option β) (k : α) :
    List.filterMap f [k] = (f k).toList := by
  cases h : f k <;> simp [List.filterMap_cons, h]

lemma cleanupsOf_append (l : List Key) (k : Key) :
    cleanupsOf ns (l ++ [k])
      = cleanupsOf ns l ++ ((lookupNode ns k).bind (fun n => ctorCleanup n.ctor)).toList := by
  unfold cleanupsOf
  rw [List.filterMap_append, filterMap_single]

lemma buildLoop_pres {P : Sstate → Prop} {f : Sstate → Key → (Except String Nat) × Sstate}
    (hf : ∀ s k, P s → P (f s k).2) :
    ∀ (ds : List Key) (s : Sstate), P s → P (buildLoop f s ds).2 := by
  intro ds
  induction ds with
  | nil => intro s h; simpa [buildLoop]
  | cons d t ih =>
    intro s h
    simp only [buildLoop]
    cases hd : f s d with
    | mk r s1 =>
      have h1 : P s1 := by have h2 := hf s d h; rw [hd] at h2; exact h2
      cases r with
      | error e => exact h1
      | ok v => exact ih s1 h1

lemma build_cleanupInv : ∀ (fuel : Nat) (s : Sstate) (k : Key),
    cleanupInv ns s → cleanupInv ns (build ns fuel s k).2 := by
  intro fuel
  induction fuel with
  | zero => intro s k h; simpa [build]
  | succ f ih =>
    intro s k h
    simp only [build]
    cases hl : lookupNode ns k with
    | none => simpa
    | some n =>
      dsimp only
      cases hc : cacheGet s.cache k with
      | some v => simpa
      | none =>
        dsimp only
        cases hb : buildLoop (fun s2 d => build ns f s2 d) s n.deps with
        | mk r s1 =>
          have h1 : cleanupInv ns s1 := by
            have h2 := buildLoop_pres (fun s2 k2 => ih s2 k2) n.deps s h
            rw [hb] at h2
            exact h2
          cases r with
          | error e => exact h1
          | ok u =>
            cases hct : n.ctor with
            | value v => exact h1
            | fail msg => exact h1
            | fixed v cl =>
              unfold cleanupInv at h1 ⊢
              dsimp only
              rw [cleanupsOf_append, hl, h1]
              dsimp only [Option.bind]
              rw [hct]
              rfl
            | fresh cl =>
              unfold cleanupInv at h1 ⊢
              dsimp only
              rw [cleanupsOf_append, hl, h1]
              dsimp only [Option.bind]
              rw [hct]
              rfl

end CleanupLemmas

section ResolvePres

lemma resolveT_nodes (c : Container) (p : Ptr) (tag : String) (t : Nat) :
    (resolveT c p tag t).2.1.nodes = c.nodes := by
  unfold resolveT
  cases hf : findC c p tag with
  | error e => rfl
  | ok n =>
    dsimp only
    cases hb : build c.nodes (c.nodes.length + 1) c.st n.key with
    | mk r s1 => cases r <;> rfl

lemma resolveT_cleanupInv (c : Container) (p : Ptr) (tag : String) (t : Nat)
    (h : cleanupInv c.nodes c.st) :
    cleanupInv c.nodes (resolveT c p tag t).2.1.st := by
  unfold resolveT
  cases hf : findC c p tag with
  | error e => exact h
  | ok n =>
    dsimp only
    cases hb : build c.nodes (c.nodes.length + 1) c.st n.key with
    | mk r s1 =>
      have h1 : cleanupInv c.nodes s1 := by
        have h2 := build_cleanupInv (c.nodes.length + 1) c.st n.key h
        rw [hb] at h2
        exact h2
      cases r <;> exact h1

lemma resolveMany_inv (ns : List Node) : ∀ (rs : List (String × String)) (c : Container),
    c.nodes = ns → cleanupInv ns c.st →
    (resolveMany c rs).nodes = ns ∧ cleanupInv ns (resolveMany c rs).st := by
  intro rs
  induction rs with
  | nil => intro c h1 h2; exact ⟨h1, h2⟩
  | cons r t ih =>
    intro c h1 h2
    simp only [resolveMany]
    apply ih
    · rw [resolveT_nodes]; exact h1
    · have h3 : cleanupInv c.nodes c.st := by rw [h1]; exact h2
      have h4 := resolveT_cleanupInv c (.ptr r.1) r.2 0 h3
      rw [h1] at h4
      exact h4

end ResolvePres

/-- Claim C2: after any sequence of `Resolve` calls on a container over any
registration set, `Cleanup` (container.go:352-357) runs the recorded thunks
in exactly the reverse of the order in which the constructors that produced
them returned successfully: the run order equals the reverse of the
completion log's cleanup contributions (last recorded thunk first). -/
theorem cleanup_reverse_of_completion (ns : List Node) (rs : List (String × String)) :
    cleanupRunOrder (resolveMany (startC ns) rs)
      = (cleanupsOf ns (resolveMany (startC ns) rs).st.completed).reverse := by
  have h0 : (startC ns).nodes = ns := rfl
  have hinv : cleanupInv ns (startC ns).st := by
    unfold cleanupInv cleanupsOf startC
    rfl
  obtain ⟨h1, h2⟩ := resolveMany_inv ns rs (startC ns) h0 hinv
  unfold cleanupInv at h2
  unfold cleanupRunOrder
  rw [h2]

section SelfLemmas

variable {ns : List Node}

lemma cacheGet_cons_eq {t : List (Key × Nat)} {k : Key} {v : Nat} :
    cacheGet ((k, v) :: t) k = some v := by
  simp [cacheGet]

lemma cacheGet_cons_ne {t : List (Key × Nat)} {k q : Key} {v : Nat} (h : ¬ k = q) :
    cacheGet ((k, v) :: t) q = cacheGet t q := by
  simp [cacheGet, h]

lemma build_cacheSelf (hself : lookupNode ns selfKey = some selfNode) :
    ∀ (fuel : Nat) (s : Sstate) (k : Key), cacheSelf s → cacheSelf (build ns fuel s k).2 := by
  intro fuel
  induction fuel with
  | zero => intro s k h; simpa [build]
  | succ f ih =>
    intro s k h
    simp only [build]
    cases hl : lookupNode ns k with
    | none => simpa
    | some n =>
      dsimp only
      cases hc : cacheGet s.cache k with
      | some v => simpa
      | none =>
        dsimp only
        cases hb : buildLoop (fun s2 d => build ns f s2 d) s n.deps with
        | mk r s1 =>
          have h1 : cacheSelf s1 := by
            have h2 := buildLoop_pres (fun s2 k2 => ih s2 k2) n.deps s h
            rw [hb] at h2
            exact h2
          cases r with
          | error e => exact h1
          | ok u =>
            by_cases hk : k = selfKey
            · have hn : n = selfNode := by
                rw [hk] at hl
                rw [hl] at hself
                injection hself
              subst hn
              cases hct : selfNode.ctor with
              | value v =>
                rw [show selfNode.ctor = CtorSpec.fixed containerValue none from rfl] at hct
                exact CtorSpec.noConfusion hct
              | fail msg =>
                rw [show selfNode.ctor = CtorSpec.fixed containerValue none from rfl] at hct
                exact CtorSpec.noConfusion hct
              | fresh cl =>
                rw [show selfNode.ctor = CtorSpec.fixed containerValue none from rfl] at hct
                exact CtorSpec.noConfusion hct
              | fixed v cl =>
                have h5 : CtorSpec.fixed containerValue none = CtorSpec.fixed v cl := hct
                have hv : containerValue = v := by injection h5
                intro w hw
                dsimp only at hw
                rw [show selfNode.prototype = false from rfl] at hw
                rw [if_neg (by decide)] at hw
                rw [hk] at hw
                rw [cacheGet_cons_eq] at hw
                injection hw with hw2
                rw [← hw2, ← hv]
            · cases hct : n.ctor with
              | value v =>
                intro w hw
                dsimp only at hw
                rw [cacheGet_cons_ne hk] at hw
                exact h1 w hw
              | fail msg => exact h1
              | fixed v cl =>
                intro w hw
                dsimp only at hw
                cases hpr : n.prototype with
                | true =>
                  rw [hpr, if_pos rfl] at hw
                  exact h1 w hw
                | false =>
                  rw [hpr, if_neg (by decide)] at hw
                  rw [cacheGet_cons_ne hk] at hw
                  exact h1 w hw
              | fresh cl =>
                intro w hw
                dsimp only at hw
                cases hpr : n.prototype with
                | true =>
                  rw [hpr, if_pos rfl] at hw
                  exact h1 w hw
                | false =>
                  rw [hpr, if_neg (by decide)] at hw
                  rw [cacheGet_cons_ne hk] at hw
                  exact h1 w hw

lemma invokeArgs_cacheSelf (hself : lookupNode ns selfKey = some selfNode) :
    ∀ (args : List Node) (s : Sstate), cacheSelf s → cacheSelf (invokeArgs ns s args).2 := by
  intro args
  induction args with
  | nil => intro s h; simpa [invokeArgs]
  | cons n t ih =>
    intro s h
    simp only [invokeArgs]
    cases hp : prepare ns n.key with
    | error e => exact h
    | ok u =>
      dsimp only
      cases hb : build ns (ns.length + 1) s n.key with
      | mk r s1 =>
        have h1 : cacheSelf s1 := by
          have h2 := build_cacheSelf hself (ns.length + 1) s n.key h
          rw [hb] at h2
          exact h2
        cases r with
        | error e => exact h1
        | ok v => exact ih s1 h1

lemma provideNode_selfOK {c : Container} (n : Node) (ifs : List String)
    (h : selfOK c) : selfOK (provideNode c n ifs).1 := by
  unfold provideNode
  cases hrv : registerViews n (register c.nodes n).1 ifs with
  | mk ns2 e =>
    dsimp only
    refine ⟨?_, h.2⟩
    have h1 : lookupNode (register c.nodes n).1 selfKey = some selfNode := register_keeps h.1
    have h2 := registerViews_keeps n ifs (register c.nodes n).1 h1
    rw [hrv] at h2
    exact h2

lemma invokeC_selfOK {c : Container} (ps : List Key) (ret : Option String)
    (h : selfOK c) : selfOK (invokeC c ps ret).1 := by
  unfold invokeC
  cases hpi : parseInvocation c.nodes ps with
  | error e => exact h
  | ok args =>
    dsimp only
    cases hia : invokeArgs c.nodes c.st args with
    | mk r s1 =>
      have h1 : cacheSelf s1 := by
        have h2 := invokeArgs_cacheSelf h.1 args c.st h.2
        rw [hia] at h2
        exact h2
      cases r with
      | error e => exact ⟨h.1, h1⟩
      | ok u =>
        cases ret with
        | some msg => exact ⟨h.1, h1⟩
        | none => exact ⟨h.1, h1⟩

lemma resolveT_selfOK {c : Container} (p : Ptr) (tag : String) (t : Nat)
    (h : selfOK c) : selfOK (resolveT c p tag t).2.1 := by
  unfold resolveT
  cases hf : findC c p tag with
  | error e => exact h
  | ok n =>
    dsimp only
    cases hb : build c.nodes (c.nodes.length + 1) c.st n.key with
    | mk r s1 =>
      have h1 : cacheSelf s1 := by
        have h2 := build_cacheSelf h.1 (c.nodes.length + 1) c.st n.key h.2
        rw [hb] at h2
        exact h2
      cases r with
      | error e => exact ⟨h.1, h1⟩
      | ok v => exact ⟨h.1, h1⟩

lemma runOpt_selfOK {c : Container} (o : Opt) (h : selfOK c) : selfOK (runOpt c o).1 := by
  have htr : ∀ f : String, selfOK { c with trace := c.trace ++ [f] } := fun f => h
  cases o with
  | valueOpt f k v =>
    simp only [runOpt]
    cases hp : provideNode { c with trace := c.trace ++ [f] } ⟨k, [], .value v, [], false⟩ [] with
    | mk c1 r =>
      have h1 : selfOK c1 := by
        have h2 := provideNode_selfOK ⟨k, [], .value v, [], false⟩ [] (htr f)
        rw [hp] at h2
        exact h2
      cases r <;> exact h1
  | provideOpt f n ifs =>
    simp only [runOpt]
    cases hp : provideNode { c with trace := c.trace ++ [f] } n ifs with
    | mk c1 r =>
      have h1 : selfOK c1 := by
        have h2 := provideNode_selfOK n ifs (htr f)
        rw [hp] at h2
        exact h2
      cases r <;> exact h1
  | invokeOpt f ps ret =>
    simp only [runOpt]
    cases hp : invokeC { c with trace := c.trace ++ [f] } ps ret with
    | mk c1 r =>
      have h1 : selfOK c1 := by
        have h2 := invokeC_selfOK ps ret (htr f)
        rw [hp] at h2
        exact h2
      cases r with
      | none => exact h1
      | some be => cases be with
        | mk known e => cases known <;> exact h1
  | resolveOpt f ty tag =>
    simp only [runOpt]
    cases hp : resolveT { c with trace := c.trace ++ [f] } (.ptr ty) tag 0 with
    | mk r rest =>
      cases rest with
      | mk c1 tv =>
        have h1 : selfOK c1 := by
          have h2 := resolveT_selfOK (.ptr ty) tag 0 (htr f)
          rw [hp] at h2
          exact h2
        cases r <;> exact h1

lemma runList_selfOK : ∀ (l : List Opt) (c : Container), selfOK c → selfOK (runList c l).1 := by
  intro l
  induction l with
  | nil => intro c h; exact h
  | cons o t ih =>
    intro c h
    simp only [runList]
    cases hr : runOpt c o with
    | mk c1 r =>
      have h1 : selfOK c1 := by
        have h2 := runOpt_selfOK o h
        rw [hr] at h2
        exact h2
      cases r with
      | none => exact ih c1 h1
      | some e => exact h1

lemma applyC_selfOK (d : Diopts) {c : Container} (h : selfOK c) : selfOK (applyC c d).1 := by
  unfold applyC
  cases h1 : runList c d.values with
  | mk c1 r1 =>
    have hc1 : selfOK c1 := by
      have h2 := runList_selfOK d.values c h
      rw [h1] at h2
      exact h2
    cases r1 with
    | some e => exact hc1
    | none =>
      dsimp only
      cases h2 : runList c1 d.provides with
      | mk c2 r2 =>
        have hc2 : selfOK c2 := by
          have h3 := runList_selfOK d.provides c1 hc1
          rw [h2] at h3
          exact h3
        cases r2 with
        | some e => exact hc2
        | none =>
          dsimp only
          cases h3 : runList c2 d.invokes with
          | mk c3 r3 =>
            have hc3 : selfOK c3 := by
              have h4 := runList_selfOK d.invokes c2 hc2
              rw [h3] at h4
              exact h4
            cases r3 with
            | some e => exact hc3
            | none => exact runList_selfOK d.resolves c3 hc3

lemma selfOK_resolves {c : Container} (h : selfOK c) (t : Nat) :
    ∃ c2, resolveT c (.ptr "*di.Container") "" t = (.ok containerValue, c2, containerValue) := by
  obtain ⟨hl, hc⟩ := h
  have hfind : findC c (.ptr "*di.Container") "" = .ok selfNode := by
    unfold findC
    dsimp only
    have hk : (⟨"*di.Container", ""⟩ : Key) = selfKey := rfl
    rw [hk, hl]
    dsimp only
    have hprep : prepare c.nodes selfNode.key = .ok () := by
      unfold prepare
      have hkey : selfNode.key = selfKey := rfl
      rw [hkey]
      simp only [prepDFS]
      rw [if_neg (List.not_mem_nil selfKey)]
      rw [hl]
      rfl
    rw [hprep]
  have hbuild : ∃ s2, build c.nodes (c.nodes.length + 1) c.st selfNode.key
      = (.ok containerValue, s2) := by
    have hkey : selfNode.key = selfKey := rfl
    rw [hkey]
    simp only [build]
    rw [hl]
    dsimp only
    cases hcg : cacheGet c.st.cache selfKey with
    | some v =>
      have hv := hc v hcg
      subst hv
      exact ⟨c.st, rfl⟩
    | none => exact ⟨_, rfl⟩
  obtain ⟨s2, hb⟩ := hbuild
  refine ⟨{ c with st := s2 }, ?_⟩
  unfold resolveT
  rw [hfind]
  dsimp only
  rw [hb]

end SelfLemmas

/-- Claim C7: every container successfully constructed by `New`
(container.go:56-72) resolves its own type to the container itself
(pointer-identical, modelled by the reserved instance id `containerValue`).
The self-provider is registered at construction, before any user-supplied
option is applied (container.go:67 precedes `c.apply(di)`), and the schema
keeps the first registration under a key, so no later option can displace
it. -/
theorem self_resolution (opts : List Opt) (c : Container) (t : Nat)
    (h : newC opts = some c) :
    ∃ c2, resolveT c (.ptr "*di.Container") "" t = (.ok containerValue, c2, containerValue) := by
  unfold newC at h
  have hinit : selfOK (provideNode ⟨[], ⟨[], [], [], [], 1⟩, []⟩ selfNode []).1 := by
    have hred : (provideNode ⟨[], ⟨[], [], [], [], 1⟩, []⟩ selfNode []).1
        = ⟨[selfNode], ⟨[], [], [], [], 1⟩, []⟩ := by decide
    rw [hred]
    refine ⟨by decide, ?_⟩
    intro v hv
    simp [cacheGet] at hv
  cases ha : applyC (provideNode ⟨[], ⟨[], [], [], [], 1⟩, []⟩ selfNode []).1 (collect opts) with
  | mk c2 r =>
    rw [ha] at h
    cases r with
    | some e => simp at h
    | none =>
      simp only [Option.some.injEq] at h
      subst h
      have hOK : selfOK c2 := by
        have h2 := applyC_selfOK (collect opts) hinit
        rw [ha] at h2
        exact h2
      exact selfOK_resolves hOK t

/-- Closed witness for `self_resolution`: a `New` with one user `Provide`
option still resolves the container's own type to the container itself. -/
theorem self_resolution_witness :
    newC [.provideOpt "f1" ⟨⟨"*http.Server", ""⟩, [], .fresh none, [], false⟩ []]
      = some ⟨[selfNode, ⟨⟨"*http.Server", ""⟩, [], .fresh none, [], false⟩],
               ⟨[], [], [], [], 1⟩, ["f1"]⟩
    ∧ ∃ c2, resolveT ⟨[selfNode, ⟨⟨"*http.Server", ""⟩, [], .fresh none, [], false⟩],
               ⟨[], [], [], [], 1⟩, ["f1"]⟩ (.ptr "*di.Container") "" 9
        = (.ok containerValue, c2, containerValue) :=
  ⟨by decide,
    self_resolution [.provideOpt "f1" ⟨⟨"*http.Server", ""⟩, [], .fresh none, [], false⟩ []]
      ⟨[selfNode, ⟨⟨"*http.Server", ""⟩, [], .fresh none, [], false⟩],
        ⟨[], [], [], [], 1⟩, ["f1"]⟩ 9 (by decide)⟩

section CycleLemmas

variable {ns : List Node}

lemma depsLoop_ok_mem {f : Key → Except String Unit} :
    ∀ {ds : List Key}, depsLoop f ds = .ok () → ∀ {d : Key}, d ∈ ds → f d = .ok () := by
  intro ds
  induction ds with
  | nil => intro h d hd; simp at hd
  | cons a t ih =>
    intro h d hd
    simp only [depsLoop] at h
    cases hfa : f a with
    | error e => rw [hfa] at h; simp at h
    | ok u =>
      rw [hfa] at h
      cases List.mem_cons.1 hd with
      | inl h1 =>
        subst h1
        cases u
        exact hfa
      | inr h1 => exact ih h h1

lemma depsLoop_ok_or {f : Key → Except String Unit}
    (hf : ∀ d, f d = .ok () ∨ f d = .error "cycle detected") :
    ∀ ds, depsLoop f ds = .ok () ∨ depsLoop f ds = .error "cycle detected" := by
  intro ds
  induction ds with
  | nil => left; rfl
  | cons a t ih =>
    simp only [depsLoop]
    cases hf a with
    | inl h => rw [h]; exact ih
    | inr h => rw [h]; right; rfl

lemma prepDFS_ok_or :
    ∀ (fuel : Nat) (gray : List Key) (k : Key),
      prepDFS ns fuel gray k = .ok () ∨ prepDFS ns fuel gray k = .error "cycle detected" := by
  intro fuel
  induction fuel with
  | zero => intro gray k; right; rfl
  | succ f ih =>
    intro gray k
    simp only [prepDFS]
    by_cases hg : k ∈ gray
    · rw [if_pos hg]; right; rfl
    · rw [if_neg hg]
      cases hl : lookupNode ns k with
      | none => left; rfl
      | some n => exact depsLoop_ok_or (fun d => ih (k :: gray) d) n.deps

lemma prep_ok_walk_nodup :
    ∀ (l : List Key) (fuel : Nat) (gray : List Key) (k : Key),
      Walk ns k l → prepDFS ns fuel gray k = .ok () → l.length < fuel →
      (k :: l).Nodup ∧ ∀ x ∈ k :: l, x ∉ gray := by
  intro l
  induction l with
  | nil =>
    intro fuel gray k _ hok hlen
    cases fuel with
    | zero => omega
    | succ f =>
      simp only [prepDFS] at hok
      by_cases hg : k ∈ gray
      · rw [if_pos hg] at hok; exact absurd hok (by simp)
      · refine ⟨List.nodup_singleton k, ?_⟩
        intro x hx
        rw [List.mem_singleton] at hx
        subst hx
        exact hg
  | cons b l2 ih =>
    intro fuel gray k hw hok hlen
    cases fuel with
    | zero => omega
    | succ f =>
      cases hw with
      | cons he hw2 =>
        obtain ⟨n, hlk, hmem⟩ := he
        simp only [prepDFS] at hok
        by_cases hg : k ∈ gray
        · rw [if_pos hg] at hok; exact absurd hok (by simp)
        · rw [if_neg hg, hlk] at hok
          dsimp only at hok
          have hb : prepDFS ns f (k :: gray) b = .ok () := depsLoop_ok_mem hok hmem
          have hlen2 : l2.length < f := by
            simp only [List.length_cons] at hlen
            omega
          obtain ⟨hnd, hnot⟩ := ih f (k :: gray) b hw2 hb hlen2
          constructor
          · rw [List.nodup_cons]
            refine ⟨?_, hnd⟩
            intro hkmem
            exact hnot k hkmem (List.mem_cons_self k gray)
          · intro x hx
            cases List.mem_cons.1 hx with
            | inl h1 => subst h1; exact hg
            | inr h1 =>
              intro hxg
              exact hnot x h1 (List.mem_cons_of_mem k hxg)

lemma not_nodup_split {α : Type} [DecidableEq α] :
    ∀ (xs : List α), ¬ xs.Nodup → ∃ p v q, xs = p ++ v :: q ∧ p.Nodup ∧ v ∈ p := by
  intro xs
  induction xs with
  | nil => intro h; exact absurd List.nodup_nil h
  | cons x t ih =>
    intro h
    by_cases ht : t.Nodup
    · have hx : x ∈ t := by
        by_contra hx
        exact h (List.nodup_cons.2 ⟨hx, ht⟩)
      obtain ⟨s, r, rfl⟩ := List.append_of_mem hx
      refine ⟨x :: s, x, r, rfl, ?_, List.mem_cons_self x s⟩
      rw [List.nodup_cons]
      refine ⟨?_, ht.of_append_left⟩
      intro hxs
      exact (List.disjoint_of_nodup_append ht) hxs (List.mem_cons_self x r)
    · obtain ⟨p, v, q, hteq, hpnd, hvp⟩ := ih ht
      by_cases hx : x ∈ p
      · obtain ⟨s, r, rfl⟩ := List.append_of_mem hx
        refine ⟨x :: s, x, r ++ v :: q, ?_, ?_, List.mem_cons_self x s⟩
        · rw [hteq]; simp [List.append_assoc]
        · rw [List.nodup_cons]
          refine ⟨?_, hpnd.of_append_left⟩
          intro hxs
          exact (List.disjoint_of_nodup_append hpnd) hxs (List.mem_cons_self x r)
      · exact ⟨x :: p, v, q, by rw [hteq]; rfl,
          List.nodup_cons.2 ⟨hx, hpnd⟩, List.mem_cons_of_mem x hvp⟩

lemma walk_prefix : ∀ (a b : List Key) (k : Key), Walk ns k (a ++ b) → Walk ns k a := by
  intro a
  induction a with
  | nil => intro b k _; exact Walk.nil k
  | cons x t ih =>
    intro b k hw
    cases hw with
    | cons he hw2 => exact Walk.cons he (ih b x hw2)

lemma walk_sources : ∀ (l : List Key) (k v : Key), Walk ns k (l ++ [v]) →
    ∀ x ∈ k :: l, ∃ y, Edge ns x y := by
  intro l
  induction l with
  | nil =>
    intro k v hw x hx
    rw [List.nil_append] at hw
    cases hw with
    | cons he hw2 =>
      rw [List.mem_singleton] at hx
      subst hx
      exact ⟨v, he⟩
  | cons b t ih =>
    intro k v hw x hx
    cases hw with
    | cons he hw2 =>
      cases List.mem_cons.1 hx with
      | inl h1 => subst h1; exact ⟨b, he⟩
      | inr h1 => exact ih b v hw2 x h1

lemma edge_mem_keys {a b : Key} (h : Edge ns a b) : a ∈ ns.map Node.key := by
  obtain ⟨n, hl, _⟩ := h
  exact lookupNode_mem_keys hl

lemma hasCycle_short {k : Key} (h : HasCycleFrom ns k) :
    ∃ l, Walk ns k l ∧ ¬ (k :: l).Nodup ∧ l.length < ns.length + 1 := by
  obtain ⟨l, hw, hnd⟩ := h
  obtain ⟨p, v, q, heq, hpnd, hvp⟩ := not_nodup_split (k :: l) hnd
  cases p with
  | nil => exact absurd hvp (List.not_mem_nil v)
  | cons a p2 =>
    have heq2 : k = a ∧ l = p2 ++ v :: q := by
      have heq3 : k :: l = a :: (p2 ++ v :: q) := heq
      exact ⟨by injection heq3, by injection heq3⟩
    obtain ⟨hak, hl2⟩ := heq2
    subst hak
    have hw2 : Walk ns k (p2 ++ [v]) := by
      have hw3 : Walk ns k ((p2 ++ [v]) ++ q) := by
        rw [List.append_assoc]
        rw [hl2] at hw
        exact hw
      exact walk_prefix (p2 ++ [v]) q k hw3
    have hnd2 : ¬ (k :: (p2 ++ [v])).Nodup := by
      intro hnd3
      have hsplit : (k :: p2) ++ [v] = k :: (p2 ++ [v]) := by simp
      rw [← hsplit] at hnd3
      exact (List.disjoint_of_nodup_append hnd3) hvp (List.mem_singleton.2 rfl)
    have hsub : ∀ x ∈ k :: p2, x ∈ ns.map Node.key := by
      intro x hx
      obtain ⟨y, hy⟩ := walk_sources p2 k v hw2 x hx
      exact edge_mem_keys hy
    have hlen : (k :: p2).length ≤ ns.length := by
      have hsp := List.subperm_of_subset hpnd (fun x hx => hsub x hx)
      have hle := hsp.length_le
      simpa using hle
    refine ⟨p2 ++ [v], hw2, hnd2, ?_⟩
    simp only [List.length_append, List.length_singleton]
    simp only [List.length_cons] at hlen
    omega

lemma hasCycle_prepare_error {k : Key} (h : HasCycleFrom ns k) :
    prepare ns k = .error "cycle detected" := by
  obtain ⟨l, hw, hnd, hlen⟩ := hasCycle_short h
  cases @prepDFS_ok_or ns (ns.length + 1) [] k with
  | inl hok =>
    obtain ⟨hnd2, _⟩ := prep_ok_walk_nodup l (ns.length + 1) [] k hw hok hlen
    exact absurd hnd2 hnd
  | inr herr => exact herr

lemma hasCycle_lookup {k : Key} (h : HasCycleFrom ns k) :
    ∃ n, lookupNode ns k = some n := by
  obtain ⟨l, hw, hnd⟩ := h
  cases l with
  | nil => exact absurd (List.nodup_singleton k) hnd
  | cons b t =>
    cases hw with
    | cons he hw2 =>
      obtain ⟨n, hl, _⟩ := he
      exact ⟨n, hl⟩

end CycleLemmas

/-- Claim C1: for every registration set inducing a dependency cycle
reachable from the requested key, `Resolve` fails with exactly
`cycle detected`, and the container is returned entirely unchanged — in
particular the invocation log is untouched, so no constructor (in the cycle
or elsewhere) is invoked: the cycle is caught by `prepare` inside `find`
(container.go:346), before `node.Value` runs (container.go:212). -/
theorem cycle_liveness (c : Container) (ty tag : String) (t : Nat)
    (h : HasCycleFrom c.nodes ⟨ty, tag⟩) :
    resolveT c (.ptr ty) tag t = (.error "cycle detected", c, t) := by
  obtain ⟨n, hn⟩ := hasCycle_lookup h
  have hkey : n.key = ⟨ty, tag⟩ := lookupNode_key_eq hn
  have hfind : findC c (.ptr ty) tag = .error "cycle detected" := by
    unfold findC
    dsimp only
    rw [hn]
    dsimp only
    rw [hkey, hasCycle_prepare_error h]
  unfold resolveT
  rw [hfind]

/-- Closed witness for `cycle_liveness`: resolving `bool` over the S3 cycle
fails with `cycle detected` and leaves the container (hence the invocation
log) unchanged. -/
theorem cycle_liveness_witness :
    HasCycleFrom cycC.nodes ⟨"bool", ""⟩
    ∧ resolveT cycC (.ptr "bool") "" 5 = (.error "cycle detected", cycC, 5) := by
  have hcyc : HasCycleFrom cycC.nodes ⟨"bool", ""⟩ := by
    refine ⟨[⟨"int32", ""⟩, ⟨"int64", ""⟩, ⟨"bool", ""⟩], ?_, by decide⟩
    refine Walk.cons ⟨cnB, by decide, by decide⟩ ?_
    refine Walk.cons ⟨cnI32, by decide, by decide⟩ ?_
    refine Walk.cons ⟨cnI64, by decide, by decide⟩ ?_
    exact Walk.nil _
  exact ⟨hcyc, cycle_liveness cycC "bool" "" 5 hcyc⟩

end DI
